import Mathlib

/-!
Verification of the task/subtask state-management core of the to-do
application.  The definitions below are a shallow embedding of the
in-memory list transformations performed by the task-store hook
(`useTodos`) of the localStorage variant; the Supabase variant applies
the same transformations as its optimistic updates.  Values produced by
the system clock in the source (`Date.now()` identifiers, `getToday()`
date strings, the 30-day cutoff) are passed as explicit arguments.
JavaScript `undefined`-able fields become `Option`; `isToday`, which the
source only ever tests for truthiness, becomes a `Bool` with `undefined`
read as `false`; numeric truthiness tests (`if (todo.parentId)`) are
modelled by `jsTruthyId`.
-/

/-- Priority levels for todos. -/
inductive TodoPriority where
  | low
  | medium
  | high
  deriving DecidableEq

/-- Todo item, mirroring the `Todo` interface of the source. -/
structure Todo where
  id : Nat
  text : String
  completed : Bool
  isToday : Bool := false
  todayDate : Option String := none
  category : Option String := none
  dueDate : Option String := none
  priority : Option TodoPriority := none
  parentId : Option Nat := none
  subtaskIds : Option (List Nat) := none
  deriving DecidableEq

/-- JavaScript truthiness of an optional number: `undefined` and `0` are
falsy, every other number is truthy. -/
def jsTruthyId (o : Option Nat) : Bool :=
  decide (o.getD 0 ≠ 0)

/-- JavaScript truthiness of an optional string: `undefined` and the empty
string are falsy. -/
def jsTruthyStr (o : Option String) : Bool :=
  decide (o.getD "" ≠ "")

/-- JavaScript `String.prototype.trim`: strip leading and trailing
whitespace (an executable model; `String.trim` of the library computes the
same stripping but does not reduce in the kernel). -/
def jsTrim (s : String) : String :=
  ⟨((s.data.dropWhile Char.isWhitespace).reverse.dropWhile Char.isWhitespace).reverse⟩

/-- The child id list of a task as the source reads it:
`todo.subtaskIds || []`. -/
def subIds (t : Todo) : List Nat :=
  t.subtaskIds.getD []

/-- Options record of `addTodo`. -/
structure AddTodoOptions where
  category : Option String := none
  dueDate : Option String := none
  priority : Option TodoPriority := none
  deriving DecidableEq

/-- `addTodo` of the source: rejects blank text, otherwise appends a fresh
task with trimmed text, `completed=false`, `isToday=true`, `todayDate`
stamped with today, and the optional fields included only when truthy
(the source spreads `options?.category && { category: ... }` etc.). -/
def addTodo (l : List Todo) (text : String) (newId : Nat) (today : String)
    (options : AddTodoOptions := {}) : List Todo :=
  if jsTrim text = "" then l
  else
    l ++ [{ id := newId
            text := jsTrim text
            completed := false
            isToday := true
            todayDate := some today
            category := if jsTruthyStr options.category then options.category else none
            dueDate := if jsTruthyStr options.dueDate then options.dueDate else none
            priority := options.priority }]

/-- `addSubtask` of the source: rejects blank text, otherwise appends the
id of the fresh subtask to the parent's `subtaskIds` and appends the
subtask (with `completed=false` and `parentId` set) to the list.  The
parent's own `completed` flag is not recomputed. -/
def addSubtask (l : List Todo) (pid : Nat) (text : String) (newId : Nat) : List Todo :=
  if jsTrim text = "" then l
  else
    (l.map fun todo =>
      if todo.id = pid then
        { todo with subtaskIds := some (subIds todo ++ [newId]) }
      else todo)
      ++ [{ id := newId, text := jsTrim text, completed := false, parentId := some pid }]

/-- Core of the subtask toggle with parent sync, shared verbatim between
`toggleSubtask` and the subtask branch of `toggleTodo` in the source:
flip the subtask, then find the parent; if flipping to complete and every
task listed in the parent's `subtaskIds` is now complete, mark the parent
complete; if flipping to incomplete, mark the parent incomplete. -/
def subtaskSyncToggle (l : List Todo) (subtask : Todo) : List Todo :=
  let newCompleted := !subtask.completed
  let updated := l.map fun t =>
    if t.id = subtask.id then { t with completed := newCompleted } else t
  match updated.find? fun t => decide (t.id = subtask.parentId.getD 0) with
  | none => updated
  | some parent =>
    match parent.subtaskIds with
    | none => updated
    | some sids =>
      if newCompleted then
        if (updated.filter fun t => decide (t.id ∈ sids)).all (fun t => t.completed) then
          updated.map fun t =>
            if t.id = parent.id then { t with completed := true } else t
        else updated
      else
        updated.map fun t =>
          if t.id = parent.id then { t with completed := false } else t

/-- `toggleSubtask` of the source: when the target is missing or has no
truthy `parentId` it falls back to a bare flip of the matching element;
otherwise it runs the parent-sync toggle. -/
def toggleSubtask (l : List Todo) (sid : Nat) : List Todo :=
  match l.find? fun t => decide (t.id = sid) with
  | none => l.map fun t => if t.id = sid then { t with completed := !t.completed } else t
  | some subtask =>
    if jsTruthyId subtask.parentId then subtaskSyncToggle l subtask
    else l.map fun t => if t.id = sid then { t with completed := !t.completed } else t

/-- `toggleTodo` of the source: no-op when the id is missing; the
parent-sync logic (inlined in the source, identical to `toggleSubtask`)
when the target is a subtask; otherwise flip the root and, when it has a
non-empty `subtaskIds`, force every listed subtask to the new value. -/
def toggleTodo (l : List Todo) (tid : Nat) : List Todo :=
  match l.find? fun t => decide (t.id = tid) with
  | none => l
  | some todo =>
    if jsTruthyId todo.parentId then
      subtaskSyncToggle l todo
    else
      let newCompleted := !todo.completed
      let updated := l.map fun t =>
        if t.id = tid then { t with completed := newCompleted } else t
      if (subIds todo).length > 0 then
        updated.map fun t =>
          if t.id ∈ subIds todo then { t with completed := newCompleted } else t
      else updated

/-- `updateTodo` of the source: no-op on blank text, otherwise replaces the
text of the matching task with the trimmed text. -/
def updateTodo (l : List Todo) (tid : Nat) (newText : String) : List Todo :=
  if jsTrim newText = "" then l
  else l.map fun todo =>
    if todo.id = tid then { todo with text := jsTrim newText } else todo

/-- The `fields` argument of `updateTodoFields`.  The outer `Option` is
JavaScript key presence (a key absent from the object), the inner value is
the possibly-`undefined` new value: `{ category: undefined }` is
`category := some none`. -/
structure FieldsUpdate where
  category : Option (Option String) := none
  dueDate : Option (Option String) := none
  priority : Option (Option TodoPriority) := none
  deriving DecidableEq

/-- JavaScript object spread `{ ...todo, ...fields }`: a key present in
`fields` overrides the stored value even when its value is `undefined`;
an absent key leaves the field untouched. -/
def spreadFields (todo : Todo) (fields : FieldsUpdate) : Todo :=
  { todo with
    category := fields.category.getD todo.category
    dueDate := fields.dueDate.getD todo.dueDate
    priority := fields.priority.getD todo.priority }

/-- `updateTodoFields` of the source: spread the partial fields object over
the matching task. -/
def updateTodoFields (l : List Todo) (tid : Nat) (fields : FieldsUpdate) : List Todo :=
  l.map fun todo => if todo.id = tid then spreadFields todo fields else todo

/-- `deleteSubtask` of the source: remove the id from the parent's
`subtaskIds` (when the parent's `subtaskIds` is defined) and drop the
subtask; a target that is missing or has no truthy parent is just
filtered out. -/
def deleteSubtask (l : List Todo) (sid : Nat) : List Todo :=
  match l.find? fun t => decide (t.id = sid) with
  | none => l.filter fun t => decide (t.id ≠ sid)
  | some subtask =>
    if jsTruthyId subtask.parentId then
      (l.map fun t =>
        if t.id = subtask.parentId.getD 0 then
          match t.subtaskIds with
          | some s => { t with subtaskIds := some (s.filter fun i => decide (i ≠ sid)) }
          | none => t
        else t).filter fun t => decide (t.id ≠ sid)
    else l.filter fun t => decide (t.id ≠ sid)

/-- `deleteTodo` of the source: no-op when the id is missing; the subtask
removal logic when the target is a subtask; otherwise delete the root and
every task listed in its `subtaskIds` (cascade). -/
def deleteTodo (l : List Todo) (tid : Nat) : List Todo :=
  match l.find? fun t => decide (t.id = tid) with
  | none => l
  | some todo =>
    if jsTruthyId todo.parentId then
      (l.map fun t =>
        if t.id = todo.parentId.getD 0 then
          match t.subtaskIds with
          | some s => { t with subtaskIds := some (s.filter fun i => decide (i ≠ tid)) }
          | none => t
        else t).filter fun t => decide (t.id ≠ tid)
    else
      l.filter fun t => decide (t.id ≠ tid ∧ t.id ∉ subIds todo)

/-- JavaScript `Array.prototype.findIndex`: first matching index, `-1`
when no element matches. -/
def findIndexJS (p : Todo → Bool) : List Todo → Int
  | [] => -1
  | a :: l =>
    if p a then 0
    else
      let r := findIndexJS p l
      if r = -1 then -1 else r + 1

/-- Insertion step of `Array.prototype.splice(n, 0, x)`: insert at index
`n`, clamping an index past the end to an append. -/
def insertAt {α : Type} : Nat → α → List α → List α
  | 0, x, l => x :: l
  | _ + 1, x, [] => [x]
  | n + 1, x, a :: l => a :: insertAt n x l

/-- Removal step of `Array.prototype.splice(n, 1)`: drop the element at
index `n` when it exists. -/
def removeAt {α : Type} : Nat → List α → List α
  | _, [] => []
  | 0, _ :: l => l
  | n + 1, a :: l => a :: removeAt n l

/-- Clamping of a `splice` start position: a negative start counts from the
end (clamped at 0), a start past the end is clamped to the length. -/
def spliceStart (len start : Int) : Nat :=
  (if start < 0 then max (len + start) 0 else min start len).toNat

/-- dnd-kit's `arrayMove`:
`newArray.splice(to < 0 ? newArray.length + to : to, 0, newArray.splice(from, 1)[0])`.
The insertion position is computed against the pre-removal length, the
removal happens, then the removed element is inserted; `splice` clamps
out-of-range start positions.  When the removal index is out of range
(reached by the store only on an empty list, where JavaScript would
insert `undefined`) the list is returned unchanged. -/
def arrayMove {α : Type} (l : List α) (fro dest : Int) : List α :=
  match l.get? (spliceStart (l.length : Int) fro) with
  | none => l
  | some removed =>
    insertAt
      (spliceStart ((removeAt (spliceStart (l.length : Int) fro) l).length : Int)
        (if dest < 0 then (l.length : Int) + dest else dest))
      removed
      (removeAt (spliceStart (l.length : Int) fro) l)

/-- `reorderTodos` of the source: look up both indexes with `findIndex`
(which yields `-1` for a missing id) and apply `arrayMove`. -/
def reorderTodos (l : List Todo) (activeId overId : Nat) : List Todo :=
  arrayMove l (findIndexJS (fun t => decide (t.id = activeId)) l)
    (findIndexJS (fun t => decide (t.id = overId)) l)

/-- `toggleToday` of the source: flip `isToday`, stamping `todayDate` with
today when turning on and clearing it when turning off. -/
def toggleToday (l : List Todo) (tid : Nat) (today : String) : List Todo :=
  l.map fun todo =>
    if todo.id = tid then
      { todo with
        isToday := !todo.isToday
        todayDate := if !todo.isToday then some today else none }
    else todo

/-- `clearCompleted` of the source: keep exactly the tasks whose
`completed` flag is false. -/
def clearCompleted (l : List Todo) : List Todo :=
  l.filter fun todo => !todo.completed

/-- `clearAllTodos` of the source. -/
def clearAllTodos (_ : List Todo) : List Todo :=
  []

/-- The load-time expiry of the `isToday` flag (the initializer of
`useTodos`): a task with a truthy `isToday` whose `todayDate` is not
today has `isToday` cleared and `todayDate` set to `undefined`; every
other task is returned unchanged. -/
def loadTodos (today : String) (l : List Todo) : List Todo :=
  l.map fun todo =>
    if todo.isToday && !(todo.todayDate == some today) then
      { todo with isToday := false, todayDate := none }
    else todo

/-- Statistics record of `useStats`. -/
structure Stats where
  totalCompleted : Nat
  streak : Nat
  lastCompleteDate : Option String
  bestStreak : Nat
  dailyCounts : List (String × Nat)
  deriving DecidableEq

/-- Default statistics of the source. -/
def defaultStats : Stats :=
  { totalCompleted := 0
    streak := 0
    lastCompleteDate := none
    bestStreak := 0
    dailyCounts := [] }

/-- `newDailyCounts[today] = (newDailyCounts[today] || 0) + 1` on the
daily-count map, modelled as an association list. -/
def bumpDailyCount (m : List (String × Nat)) (d : String) : List (String × Nat) :=
  if m.any fun p => decide (p.1 = d) then
    m.map fun p => if p.1 = d then (p.1, p.2 + 1) else p
  else m ++ [(d, 1)]

/-- Deletion of entries older than the 30-day cutoff (string comparison of
YYYY-MM-DD dates, as in the source). -/
def pruneDailyCounts (m : List (String × Nat)) (cutoff : String) : List (String × Nat) :=
  m.filter fun p => !decide (p.1 < cutoff)

/-- `recordCompletion` of `useStats`: streak unchanged when the last
completion was today, incremented when it was yesterday, reset to 1
otherwise (first-ever completion or a gap); total incremented; best
streak updated; last completion date stamped; daily counts bumped and
pruned.  The dates the source reads from the clock are parameters. -/
def recordCompletion (today yesterday cutoff : String) (prev : Stats) : Stats :=
  let newStreak :=
    if prev.lastCompleteDate = some today then prev.streak
    else if prev.lastCompleteDate = some yesterday then prev.streak + 1
    else if prev.lastCompleteDate = none then 1
    else 1
  { totalCompleted := prev.totalCompleted + 1
    streak := newStreak
    lastCompleteDate := some today
    bestStreak := max prev.bestStreak newStreak
    dailyCounts := pruneDailyCounts (bumpDailyCount prev.dailyCounts today) cutoff }

/-- The completion-rollup invariant of the specification: every parent task
with a non-empty subtask list is completed exactly when all of its
subtasks present in the list are completed. -/
def CompletionInv (l : List Todo) : Prop :=
  ∀ t ∈ l, subIds t ≠ [] →
    (t.completed = true ↔ ∀ s ∈ l, s.id ∈ subIds t → s.completed = true)

/-- Well-formedness of a task list, from the data-model invariants of the
specification: ids are unique; every id listed in a `subtaskIds` belongs
to a task of the list whose `parentId` is that parent; every task with a
`parentId` has a truthy parent id, no children of its own, and an
existing root parent listing it (one level of nesting only). -/
def WellFormed (l : List Todo) : Prop :=
  (l.map Todo.id).Nodup ∧
  (∀ t ∈ l, ∀ cid ∈ subIds t, ∃ c ∈ l, c.id = cid ∧ c.parentId = some t.id) ∧
  (∀ c ∈ l, ∀ pid, c.parentId = some pid →
    pid ≠ 0 ∧ subIds c = [] ∧
    ∃ p ∈ l, p.id = pid ∧ c.id ∈ subIds p ∧ p.parentId = none)

theorem map_id_of_forall {α : Type} {l : List α} {f : α → α}
    (h : ∀ a ∈ l, f a = a) : l.map f = l := by
  rw [List.map_congr_left h]
  exact List.map_id' l

theorem find?_map_of_id (l : List Todo) (g : Todo → Todo)
    (hg : ∀ t, (g t).id = t.id) (x : Nat) :
    (l.map g).find? (fun t => decide (t.id = x))
      = ((l.find? fun t => decide (t.id = x)).map g) := by
  have he : ((fun t => decide (t.id = x)) ∘ g) = (fun t : Todo => decide (t.id = x)) := by
    funext t
    simp [Function.comp, hg]
  rw [List.find?_map, he]

theorem find?_id_self {l : List Todo} {t : Todo}
    (hnd : (l.map Todo.id).Nodup) (ht : t ∈ l) :
    l.find? (fun u => decide (u.id = t.id)) = some t := by
  induction l with
  | nil => cases ht
  | cons a l ih =>
    rw [List.map_cons, List.nodup_cons] at hnd
    rcases List.mem_cons.mp ht with h | h
    · subst h
      simp [List.find?_cons]
    · have hne : ¬ a.id = t.id := fun he => hnd.1 (he ▸ List.mem_map_of_mem Todo.id h)
      simp [List.find?_cons, hne, ih hnd.2 h]

theorem eq_of_mem_of_id_eq {l : List Todo} {t u : Todo}
    (hnd : (l.map Todo.id).Nodup) (ht : t ∈ l) (hu : u ∈ l)
    (h : t.id = u.id) : t = u := by
  induction l with
  | nil => cases ht
  | cons a l ih =>
    rw [List.map_cons, List.nodup_cons] at hnd
    rcases List.mem_cons.mp ht with h1 | h1 <;> rcases List.mem_cons.mp hu with h2 | h2
    · exact h1.trans h2.symm
    · subst h1
      exact absurd (h ▸ List.mem_map_of_mem Todo.id h2) hnd.1
    · subst h2
      exact absurd (h ▸ List.mem_map_of_mem Todo.id h1) hnd.1
    · exact ih hnd.2 h1 h2

/-- C4 counterexample: `clearCompleted` on a completed root with an
incomplete subtask keeps the subtask, so the claimed cascade deletion of a
completed root's incomplete subtasks does not happen and an orphan (a task
whose parent is absent) remains. -/
def doneRoot : Todo :=
  { id := 1, text := "done", completed := true, subtaskIds := some [2] }

def openSub : Todo :=
  { id := 2, text := "still open", completed := false, parentId := some 1 }

/-- C4: counterexample.  The task list `[doneRoot, openSub]` has a completed
root whose listed subtask is incomplete; `clearCompleted` keeps the
incomplete subtask (no cascade), and the surviving task's parent id no
longer exists in the list, contradicting the claim that incomplete
subtasks of a completed root are cascade-deleted and that no task with an
absent parent remains. -/
theorem clearCompleted_keeps_orphan_subtask :
    clearCompleted [doneRoot, openSub] = [openSub] ∧
    openSub.completed = false ∧
    openSub.parentId = some doneRoot.id ∧
    ∀ t ∈ clearCompleted [doneRoot, openSub], t.id ≠ doneRoot.id := by
  decide

/-- C4 (amended): `clearCompleted()` deletes exactly the tasks (roots or
subtasks) whose `completed` flag is true; there is no cascade, so an
incomplete subtask of a completed root survives (orphaned). -/
theorem clearCompleted_deletes_exactly_completed (l : List Todo) (t : Todo) :
    t ∈ clearCompleted l ↔ t ∈ l ∧ t.completed = false := by
  simp [clearCompleted, List.mem_filter]

/-- C6: partial-update semantics of `updateTodoFields`: a call with no keys
present leaves the whole list (hence category, dueDate and priority of
every task) unchanged; a call with `category` explicitly present but
`undefined` clears the target task's category while keeping its other
fields; tasks with a different id are untouched. -/
theorem updateFields_clear_vs_absent
    (l : List Todo) (t : Todo) (tid : Nat) (ht : t ∈ l) (hid : t.id = tid) :
    updateTodoFields l tid {} = l ∧
    { t with category := none } ∈ updateTodoFields l tid { category := some none } ∧
    ∀ u ∈ l, u.id ≠ tid → u ∈ updateTodoFields l tid { category := some none } := by
  refine ⟨?_, ?_, ?_⟩
  · exact map_id_of_forall fun a _ => by simp [spreadFields]
  · have := List.mem_map_of_mem
      (fun todo => if todo.id = tid then spreadFields todo { category := some none } else todo) ht
    simpa [updateTodoFields, hid, spreadFields] using this
  · intro u hu hne
    have := List.mem_map_of_mem
      (fun todo => if todo.id = tid then spreadFields todo { category := some none } else todo) hu
    simpa [updateTodoFields, hne] using this

/-- C6 witness: concrete instantiation of the partial-update semantics. -/
def catTask : Todo :=
  { id := 7, text := "categorized", completed := false, category := some "work" }

theorem updateFields_clear_vs_absent_witness :
    updateTodoFields [catTask] 7 {} = [catTask] ∧
    { catTask with category := none } ∈ updateTodoFields [catTask] 7 { category := some none } := by
  have h := updateFields_clear_vs_absent [catTask] catTask 7 (by decide) (by decide)
  exact ⟨h.1, h.2.1⟩

/-- C8 counterexample state: a task whose `isToday` flag is off but whose
`todayDate` is a stale date. -/
def staleOffTask : Todo :=
  { id := 1, text := "stale", completed := false, isToday := false,
    todayDate := some "2024-01-01" }

/-- C8: counterexample.  On load with today = 2024-01-02, the task whose
`todayDate` (2024-01-01) differs from today is returned unchanged because
its `isToday` flag is off: its `todayDate` is not cleared to `undefined`,
contradicting the claim that every task with a differing `todayDate` has
both fields cleared. -/
theorem loadTodos_keeps_stale_date_when_flag_off :
    staleOffTask.todayDate ≠ some "2024-01-02" ∧
    loadTodos "2024-01-02" [staleOffTask] = [staleOffTask] ∧
    staleOffTask.todayDate ≠ none := by
  decide

/-- C8 (amended): on load, every task with `isToday=true` whose `todayDate`
differs from today has `isToday` cleared to false and `todayDate` cleared
to `undefined` (no other field changes); a task whose `todayDate` equals
today, and any task with `isToday=false`, is returned unchanged. -/
theorem loadTodos_expires_only_flagged
    (l : List Todo) (today : String) (t : Todo) (ht : t ∈ l) :
    (t.isToday = true → t.todayDate ≠ some today →
      { t with isToday := false, todayDate := none } ∈ loadTodos today l) ∧
    (t.todayDate = some today → t ∈ loadTodos today l) ∧
    (t.isToday = false → t ∈ loadTodos today l) := by
  refine ⟨?_, ?_, ?_⟩
  · intro h1 h2
    have := List.mem_map_of_mem
      (fun todo => if todo.isToday && !(todo.todayDate == some today) then
        { todo with isToday := false, todayDate := none } else todo) ht
    simpa [loadTodos, h1, h2] using this
  · intro h1
    have := List.mem_map_of_mem
      (fun todo => if todo.isToday && !(todo.todayDate == some today) then
        { todo with isToday := false, todayDate := none } else todo) ht
    simpa [loadTodos, h1] using this
  · intro h1
    have := List.mem_map_of_mem
      (fun todo => if todo.isToday && !(todo.todayDate == some today) then
        { todo with isToday := false, todayDate := none } else todo) ht
    simpa [loadTodos, h1] using this

/-- C8 witness: a flagged task with yesterday's stamp is expired on load. -/
def yesterdayTask : Todo :=
  { id := 3, text := "flagged", completed := false, isToday := true,
    todayDate := some "2024-01-01" }

theorem loadTodos_expires_only_flagged_witness :
    { yesterdayTask with isToday := false, todayDate := none }
      ∈ loadTodos "2024-01-02" [yesterdayTask] :=
  (loadTodos_expires_only_flagged [yesterdayTask] "2024-01-02" yesterdayTask
    (by decide)).1 (by decide) (by decide)

/-- C10: a successful `addTodo` (non-blank text) appends a fresh root task
that is created with `isToday=true` and `todayDate` stamped with the
current calendar date, so it immediately belongs to the "today" view. -/
theorem addTodo_stamps_today
    (l : List Todo) (text : String) (newId : Nat) (today : String)
    (options : AddTodoOptions) (h : jsTrim text ≠ "") :
    ∃ newT : Todo,
      addTodo l text newId today options = l ++ [newT] ∧
      newT.isToday = true ∧ newT.todayDate = some today ∧
      newT.parentId = none ∧ newT.completed = false ∧ newT.id = newId := by
  refine ⟨{ id := newId, text := jsTrim text, completed := false, isToday := true,
            todayDate := some today,
            category := if jsTruthyStr options.category then options.category else none,
            dueDate := if jsTruthyStr options.dueDate then options.dueDate else none,
            priority := options.priority }, ?_, rfl, rfl, rfl, rfl, rfl⟩
  simp [addTodo, h]

/-- C10 witness: a concrete add stamps the today flag and date. -/
theorem addTodo_stamps_today_witness :
    ∃ newT : Todo,
      addTodo [] " buy milk " 42 "2024-01-02" {} = [] ++ [newT] ∧
      newT.isToday = true ∧ newT.todayDate = some "2024-01-02" ∧
      newT.parentId = none ∧ newT.completed = false ∧ newT.id = 42 :=
  addTodo_stamps_today [] " buy milk " 42 "2024-01-02" {} (by decide)

/-- C9: `recordCompletion` increments the total, stamps the last completion
date with today, updates the best streak to the maximum of the old best
and the new streak, keeps the streak when the last completion was today,
increments it when it was yesterday, and resets it to 1 otherwise (first
completion or a gap of two or more days); concretely, from default stats
a completion on day 1 gives streak 1 / total 1 and a completion on day 3
gives streak 1 / total 2 / best streak 1. -/
theorem recordCompletion_streak_arithmetic
    (s : Stats) (today yesterday cutoff : String) :
    ((recordCompletion today yesterday cutoff s).totalCompleted = s.totalCompleted + 1) ∧
    ((recordCompletion today yesterday cutoff s).lastCompleteDate = some today) ∧
    ((recordCompletion today yesterday cutoff s).bestStreak
      = max s.bestStreak (recordCompletion today yesterday cutoff s).streak) ∧
    (s.lastCompleteDate = some today →
      (recordCompletion today yesterday cutoff s).streak = s.streak) ∧
    (s.lastCompleteDate ≠ some today → s.lastCompleteDate = some yesterday →
      (recordCompletion today yesterday cutoff s).streak = s.streak + 1) ∧
    (s.lastCompleteDate ≠ some today → s.lastCompleteDate ≠ some yesterday →
      (recordCompletion today yesterday cutoff s).streak = 1) ∧
    ((recordCompletion "2024-01-01" "2023-12-31" "2023-12-02" defaultStats).streak = 1 ∧
     (recordCompletion "2024-01-01" "2023-12-31" "2023-12-02" defaultStats).totalCompleted = 1 ∧
     (recordCompletion "2024-01-03" "2024-01-02" "2023-12-04"
       (recordCompletion "2024-01-01" "2023-12-31" "2023-12-02" defaultStats)).streak = 1 ∧
     (recordCompletion "2024-01-03" "2024-01-02" "2023-12-04"
       (recordCompletion "2024-01-01" "2023-12-31" "2023-12-02" defaultStats)).totalCompleted = 2 ∧
     (recordCompletion "2024-01-03" "2024-01-02" "2023-12-04"
       (recordCompletion "2024-01-01" "2023-12-31" "2023-12-02" defaultStats)).bestStreak = 1) := by
  refine ⟨rfl, rfl, rfl, ?_, ?_, ?_, by decide⟩
  · intro h
    simp [recordCompletion, h]
  · intro h1 h2
    rw [h2] at h1
    have h3 : ¬ yesterday = today := fun he => h1 (by rw [he])
    simp [recordCompletion, h2, h3]
  · intro h1 h2
    by_cases h3 : s.lastCompleteDate = none <;> simp [recordCompletion, h1, h2, h3]

/-- C9 witness: a completion the day after the previous one increments the
streak. -/
theorem recordCompletion_streak_arithmetic_witness :
    (recordCompletion "2024-01-02" "2024-01-01" "2023-12-03"
      { totalCompleted := 4, streak := 2, lastCompleteDate := some "2024-01-01",
        bestStreak := 2, dailyCounts := [] }).streak = 2 + 1 :=
  (recordCompletion_streak_arithmetic
    { totalCompleted := 4, streak := 2, lastCompleteDate := some "2024-01-01",
      bestStreak := 2, dailyCounts := [] }
    "2024-01-02" "2024-01-01" "2023-12-03").2.2.2.2.1 (by decide) (by decide)

/-- Shared witness state: a root with two subtasks, one incomplete, one
complete. -/
def rootP : Todo :=
  { id := 1, text := "parent", completed := false, subtaskIds := some [2, 3] }

def subA : Todo :=
  { id := 2, text := "first step", completed := false, parentId := some 1 }

def subB : Todo :=
  { id := 3, text := "second step", completed := true, parentId := some 1 }

/-- C2: toggling a root task with a non-empty subtask list flips the root's
`completed` and forces the `completed` of every task listed in its
`subtaskIds` to the same new value, regardless of their previous
states. -/
theorem toggleTodo_root_propagates
    (l : List Todo) (r : Todo) (sids : List Nat)
    (hnd : (l.map Todo.id).Nodup) (hr : r ∈ l)
    (hroot : r.parentId = none) (hsub : r.subtaskIds = some sids) (hne : sids ≠ []) :
    ((toggleTodo l r.id).find? (fun t => decide (t.id = r.id))
        = some { r with completed := !r.completed }) ∧
    ∀ t ∈ l, t.id ∈ sids → { t with completed := !r.completed } ∈ toggleTodo l r.id := by
  have hfind : l.find? (fun t => decide (t.id = r.id)) = some r := find?_id_self hnd hr
  have hres : toggleTodo l r.id
      = l.map ((fun t => if t.id ∈ sids then { t with completed := !r.completed } else t)
          ∘ (fun t => if t.id = r.id then { t with completed := !r.completed } else t)) := by
    unfold toggleTodo
    rw [hfind]
    simp [jsTruthyId, hroot, subIds, hsub, List.length_pos.mpr hne, List.map_map]
  have hgid : ∀ t : Todo,
      (((fun t => if t.id ∈ sids then { t with completed := !r.completed } else t)
        ∘ (fun t => if t.id = r.id then { t with completed := !r.completed } else t)) t).id
        = t.id := by
    intro t
    by_cases h1 : t.id = r.id <;> by_cases h2 : t.id ∈ sids <;>
      simp [Function.comp, h1, h2]
  constructor
  · rw [hres, find?_map_of_id _ _ hgid, hfind]
    by_cases h2 : r.id ∈ sids <;> simp [Function.comp, h2]
  · intro t ht hmem
    rw [hres]
    refine List.mem_map.mpr ⟨t, ht, ?_⟩
    by_cases h1 : t.id = r.id <;> simp [Function.comp, h1, hmem]

/-- C2 witness: toggling the concrete root forces both subtasks (one of
which was already complete, one incomplete) to the new value. -/
theorem toggleTodo_root_propagates_witness :
    ((toggleTodo [rootP, subA, subB] rootP.id).find? (fun t => decide (t.id = rootP.id))
        = some { rootP with completed := !rootP.completed }) ∧
    { subA with completed := !rootP.completed } ∈ toggleTodo [rootP, subA, subB] rootP.id := by
  have h := toggleTodo_root_propagates [rootP, subA, subB] rootP [2, 3]
    (by decide) (by decide) (by decide) (by decide) (by decide)
  exact ⟨h.1, h.2 subA (by decide) (by decide)⟩

/-- C1: toggling a subtask (whose parent exists, with unique ids and a
well-formed parent link) flips the subtask's `completed`; when the flip is
to complete and every task listed in the parent's `subtaskIds` is then
complete, the parent becomes complete; when the flip is to incomplete,
the parent becomes incomplete regardless of the siblings.  `toggleSubtask`
and `toggleTodo` agree on such a target. -/
theorem toggleTodo_subtask_rollup
    (l : List Todo) (s p : Todo) (pid : Nat) (sids : List Nat)
    (hnd : (l.map Todo.id).Nodup) (hs : s ∈ l) (hp : p ∈ l)
    (hpar : s.parentId = some pid) (hpid : pid ≠ 0) (hpe : p.id = pid)
    (hsp : s.id ≠ pid) (hpsub : p.subtaskIds = some sids) :
    ((toggleTodo l s.id).find? (fun t => decide (t.id = s.id))
        = some { s with completed := !s.completed }) ∧
    (toggleSubtask l s.id = toggleTodo l s.id) ∧
    ((!s.completed) = true →
      ((l.map fun t => if t.id = s.id then { t with completed := !s.completed } else t).filter
          (fun t => decide (t.id ∈ sids))).all (fun t => t.completed) = true →
      (toggleTodo l s.id).find? (fun t => decide (t.id = pid))
        = some { p with completed := true }) ∧
    ((!s.completed) = false →
      (toggleTodo l s.id).find? (fun t => decide (t.id = pid))
        = some { p with completed := false }) := by
  have hfind : l.find? (fun t => decide (t.id = s.id)) = some s := find?_id_self hnd hs
  have htr : jsTruthyId s.parentId = true := by simp [jsTruthyId, hpar, hpid]
  have hps : ¬ p.id = s.id := by
    rw [hpe]
    exact fun he => hsp he.symm
  have hsp2 : ¬ s.id = p.id := fun he => hps he.symm
  have hg1id : ∀ t : Todo,
      ((fun t => if t.id = s.id then { t with completed := !s.completed } else t) t).id = t.id := by
    intro t
    by_cases h : t.id = s.id <;> simp [h]
  have hplfind : l.find? (fun t => decide (t.id = pid)) = some p := by
    rw [← hpe]
    exact find?_id_self hnd hp
  have hmidp : (l.map fun t => if t.id = s.id then { t with completed := !s.completed } else t).find?
      (fun t => decide (t.id = pid)) = some p := by
    rw [find?_map_of_id _ _ hg1id pid, hplfind]
    simp [hps]
  have hmids : (l.map fun t => if t.id = s.id then { t with completed := !s.completed } else t).find?
      (fun t => decide (t.id = s.id)) = some { s with completed := !s.completed } := by
    rw [find?_map_of_id _ _ hg1id s.id, hfind]
    simp
  have hsync : toggleTodo l s.id = subtaskSyncToggle l s := by
    unfold toggleTodo
    rw [hfind]
    simp [htr]
  have hsync2 : toggleSubtask l s.id = subtaskSyncToggle l s := by
    unfold toggleSubtask
    rw [hfind]
    simp [htr]
  have e1 : subtaskSyncToggle l s =
      (if (!s.completed) = true then
        if ((l.map fun t => if t.id = s.id then { t with completed := !s.completed } else t).filter
            (fun t => decide (t.id ∈ sids))).all (fun t => t.completed) = true then
          (l.map fun t => if t.id = s.id then { t with completed := !s.completed } else t).map
            fun t => if t.id = p.id then { t with completed := true } else t
        else l.map fun t => if t.id = s.id then { t with completed := !s.completed } else t
      else
        (l.map fun t => if t.id = s.id then { t with completed := !s.completed } else t).map
          fun t => if t.id = p.id then { t with completed := false } else t) := by
    simp only [subtaskSyncToggle]
    rw [hpar]
    simp only [Option.getD_some]
    rw [hmidp]
    simp only [hpsub]
  have hg2id : ∀ b : Bool, ∀ t : Todo,
      ((fun t => if t.id = p.id then { t with completed := b } else t) t).id = t.id := by
    intro b t
    by_cases h : t.id = p.id <;> simp [h]
  refine ⟨?_, by rw [hsync, hsync2], ?_, ?_⟩
  · rw [hsync, e1]
    by_cases h1 : (!s.completed) = true
    · rw [if_pos h1]
      by_cases h2 : ((l.map fun t => if t.id = s.id then { t with completed := !s.completed } else t).filter
          (fun t => decide (t.id ∈ sids))).all (fun t => t.completed) = true
      · rw [if_pos h2, find?_map_of_id _ _ (hg2id true) s.id, hmids]
        simp [hsp2]
      · rw [if_neg h2]
        exact hmids
    · rw [if_neg h1, find?_map_of_id _ _ (hg2id false) s.id, hmids]
      simp [hsp2]
  · intro hc hall
    rw [hsync, e1, if_pos hc, if_pos hall, find?_map_of_id _ _ (hg2id true) pid, hmidp]
    simp [hpe]
  · intro hc
    have hc2 : ¬ ((!s.completed) = true) := by
      rw [hc]
      exact Bool.false_ne_true
    rw [hsync, e1, if_neg hc2, find?_map_of_id _ _ (hg2id false) pid, hmidp]
    simp [hpe]

/-- C1 witness: completing the last incomplete subtask of the concrete
state marks the parent complete. -/
theorem toggleTodo_subtask_rollup_witness :
    (toggleTodo [rootP, subA, subB] subA.id).find? (fun t => decide (t.id = 1))
      = some { rootP with completed := true } := by
  have h := toggleTodo_subtask_rollup [rootP, subA, subB] subA rootP 1 [2, 3]
    (by decide) (by decide) (by decide) (by decide) (by decide) (by decide) (by decide) (by decide)
  exact h.2.2.1 (by decide) (by decide)

theorem findIndexJS_append (p : Todo → Bool) (A B : List Todo) (x : Todo)
    (hA : ∀ a ∈ A, p a = false) (hx : p x = true) :
    findIndexJS p (A ++ x :: B) = A.length := by
  induction A with
  | nil =>
    simp [findIndexJS, hx]
  | cons a A ih =>
    have ha : p a = false := hA a (by simp)
    have ih2 : findIndexJS p (A ++ x :: B) = A.length :=
      ih fun b hb => hA b (by simp [hb])
    have hne : ¬ ((A.length : Int) = -1) := by omega
    simp [findIndexJS, ha, ih2, hne]

theorem get?_append_cons {α : Type} (A B : List α) (x : α) :
    (A ++ x :: B).get? A.length = some x := by
  induction A with
  | nil => rfl
  | cons a A ih => simpa using ih

theorem removeAt_append {α : Type} (A B : List α) (x : α) :
    removeAt A.length (A ++ x :: B) = A ++ B := by
  induction A with
  | nil => rfl
  | cons a A ih => simp [removeAt, ih]

theorem insertAt_append {α : Type} (A B : List α) (x : α) :
    insertAt A.length x (A ++ B) = A ++ x :: B := by
  induction A with
  | nil => rfl
  | cons a A ih => simp [insertAt, ih]

theorem spliceStart_natCast (len : Int) (n : Nat) (h : (n : Int) ≤ len) :
    spliceStart len n = n := by
  unfold spliceStart
  rw [if_neg (by omega : ¬ ((n : Int) < 0))]
  omega

theorem arrayMove_adjacent_fwd {α : Type} (A B : List α) (x y : α) :
    arrayMove (A ++ x :: y :: B) (A.length : Int) ((A.length : Int) + 1) = A ++ y :: x :: B := by
  have hlen : ((A ++ x :: y :: B).length : Int) = A.length + B.length + 2 := by
    simp
    omega
  have h1 : spliceStart ((A ++ x :: y :: B).length : Int) (A.length : Int) = A.length := by
    apply spliceStart_natCast
    omega
  have h2 : spliceStart ((A ++ y :: B).length : Int) ((A.length : Int) + 1) = A.length + 1 := by
    have hlen2 : ((A ++ y :: B).length : Int) = A.length + B.length + 1 := by
      simp
      omega
    have := spliceStart_natCast ((A ++ y :: B).length : Int) (A.length + 1) (by omega)
    simpa using this
  have h3 : insertAt (A.length + 1) x (A ++ y :: B) = A ++ y :: x :: B := by
    have := insertAt_append (A ++ [y]) B x
    simpa using this
  unfold arrayMove
  rw [h1, get?_append_cons, removeAt_append,
    if_neg (by omega : ¬ ((A.length : Int) + 1 < 0)), h2]
  exact h3

theorem arrayMove_adjacent_bwd {α : Type} (A B : List α) (x y : α) :
    arrayMove (A ++ x :: y :: B) ((A.length : Int) + 1) (A.length : Int) = A ++ y :: x :: B := by
  have hlen : ((A ++ x :: y :: B).length : Int) = A.length + B.length + 2 := by
    simp
    omega
  have h1 : spliceStart ((A ++ x :: y :: B).length : Int) ((A.length : Int) + 1) = A.length + 1 := by
    rw [show (A.length : Int) + 1 = ((A.length + 1 : Nat) : Int) by push_cast; ring]
    apply spliceStart_natCast
    omega
  have hget : (A ++ x :: y :: B).get? (A.length + 1) = some y := by
    have := get?_append_cons (A ++ [x]) B y
    simpa using this
  have hrem : removeAt (A.length + 1) (A ++ x :: y :: B) = A ++ x :: B := by
    have := removeAt_append (A ++ [x]) B y
    simpa using this
  have h2 : spliceStart ((A ++ x :: B).length : Int) (A.length : Int) = A.length := by
    apply spliceStart_natCast
    simp
    omega
  have h3 : insertAt A.length y (A ++ x :: B) = A ++ y :: x :: B :=
    insertAt_append A (x :: B) y
  unfold arrayMove
  rw [h1, hget, hrem, if_neg (by omega : ¬ ((A.length : Int) < 0)), h2]
  exact h3

/-- Concrete tasks for the reorder counterexamples. -/
def taskA : Todo := { id := 1, text := "alpha", completed := false }

def taskB : Todo := { id := 2, text := "beta", completed := false }

def taskC : Todo := { id := 3, text := "gamma", completed := false }

/-- C5: counterexample.  Moving the first of three siblings to the position
of the third and then back (X to Y, then Y to X) yields [b, a, c], not the
original [a, b, c]: the round trip does not restore the original relative
order for non-adjacent tasks. -/
theorem reorder_roundtrip_counterexample :
    reorderTodos (reorderTodos [taskA, taskB, taskC] 1 3) 3 1 = [taskB, taskA, taskC] ∧
    [taskB, taskA, taskC] ≠ [taskA, taskB, taskC] := by
  decide

/-- C5 (amended): for adjacent distinct siblings X and Y the reorder round
trip (X to Y, then Y to X) does restore the original list, in either
adjacency order. -/
theorem reorder_adjacent_roundtrip
    (A B : List Todo) (x y : Todo)
    (hA : ∀ a ∈ A, a.id ≠ x.id ∧ a.id ≠ y.id) (hxy : x.id ≠ y.id) :
    reorderTodos (reorderTodos (A ++ x :: y :: B) x.id y.id) y.id x.id = A ++ x :: y :: B ∧
    reorderTodos (reorderTodos (A ++ x :: y :: B) y.id x.id) x.id y.id = A ++ x :: y :: B := by
  have fx : findIndexJS (fun t => decide (t.id = x.id)) (A ++ x :: y :: B) = A.length :=
    findIndexJS_append _ A _ x (fun a ha => by simp [(hA a ha).1]) (by simp)
  have fy : findIndexJS (fun t => decide (t.id = y.id)) (A ++ x :: y :: B) = A.length + 1 := by
    have := findIndexJS_append (fun t => decide (t.id = y.id)) (A ++ [x]) B y
      (by
        intro a ha
        rcases List.mem_append.mp ha with h | h
        · simp [(hA a h).2]
        · simp at h
          subst h
          simp [hxy])
      (by simp)
    simpa using this
  have fy2 : findIndexJS (fun t => decide (t.id = y.id)) (A ++ y :: x :: B) = A.length :=
    findIndexJS_append _ A _ y (fun a ha => by simp [(hA a ha).2]) (by simp)
  have fx2 : findIndexJS (fun t => decide (t.id = x.id)) (A ++ y :: x :: B) = A.length + 1 := by
    have := findIndexJS_append (fun t => decide (t.id = x.id)) (A ++ [y]) B x
      (by
        intro a ha
        rcases List.mem_append.mp ha with h | h
        · simp [(hA a h).1]
        · simp at h
          subst h
          simp [Ne.symm hxy])
      (by simp)
    simpa using this
  have step1 : reorderTodos (A ++ x :: y :: B) x.id y.id = A ++ y :: x :: B := by
    rw [reorderTodos, fx, fy]
    exact arrayMove_adjacent_fwd A B x y
  have step2 : reorderTodos (A ++ y :: x :: B) y.id x.id = A ++ x :: y :: B := by
    rw [reorderTodos, fy2, fx2]
    exact arrayMove_adjacent_fwd A B y x
  have step3 : reorderTodos (A ++ x :: y :: B) y.id x.id = A ++ y :: x :: B := by
    rw [reorderTodos, fy, fx]
    exact arrayMove_adjacent_bwd A B x y
  have step4 : reorderTodos (A ++ y :: x :: B) x.id y.id = A ++ x :: y :: B := by
    rw [reorderTodos, fx2, fy2]
    exact arrayMove_adjacent_bwd A B y x
  exact ⟨by rw [step1, step2], by rw [step3, step4]⟩

/-- C5 witness: adjacent round trip on a concrete two-task list. -/
theorem reorder_adjacent_roundtrip_witness :
    reorderTodos (reorderTodos [taskA, taskB] taskA.id taskB.id) taskB.id taskA.id
      = [taskA, taskB] := by
  have h := reorder_adjacent_roundtrip [] [] taskA taskB (by simp) (by decide)
  simpa using h.1

/-- C7: counterexample.  `reorderTodos` with an absent `activeId` is not a
no-op: `findIndex` yields -1, and `splice(-1, 1)` removes the last
element, which is then inserted at the over position — [a, b] becomes
[b, a]. -/
theorem reorder_missing_id_moves_last :
    (∀ t ∈ [taskA, taskB], t.id ≠ 99) ∧
    reorderTodos [taskA, taskB] 99 1 = [taskB, taskA] ∧
    [taskB, taskA] ≠ [taskA, taskB] := by
  decide

/-- C7 (amended): the mutations `toggleTodo`, `updateTodo` (any text) and
`deleteTodo` targeting an id not present in the list leave the list
completely unchanged; `reorderTodos` with an absent id is excluded, since
it can move an element (see the counterexample). -/
theorem missing_id_mutations_noop
    (l : List Todo) (tid : Nat) (newText : String)
    (habs : ∀ t ∈ l, t.id ≠ tid) :
    toggleTodo l tid = l ∧ updateTodo l tid newText = l ∧ deleteTodo l tid = l := by
  have hnone : l.find? (fun t => decide (t.id = tid)) = none :=
    List.find?_eq_none.mpr fun t ht => by simp [habs t ht]
  refine ⟨?_, ?_, ?_⟩
  · unfold toggleTodo
    rw [hnone]
  · unfold updateTodo
    split
    · rfl
    · exact map_id_of_forall fun a ha => if_neg (habs a ha)
  · unfold deleteTodo
    rw [hnone]

/-- C7 witness: the three mutations on a concrete list with an absent id. -/
theorem missing_id_mutations_noop_witness :
    toggleTodo [taskA] 5 = [taskA] ∧ updateTodo [taskA] 5 "other" = [taskA] ∧
    deleteTodo [taskA] 5 = [taskA] :=
  missing_id_mutations_noop [taskA] 5 "other" (by decide)

theorem completionInv_map (l : List Todo) (g : Todo → Todo)
    (hid : ∀ t, (g t).id = t.id) (hsub : ∀ t, (g t).subtaskIds = t.subtaskIds)
    (H : ∀ t ∈ l, subIds t ≠ [] →
      ((g t).completed = true ↔ ∀ u ∈ l, u.id ∈ subIds t → (g u).completed = true)) :
    CompletionInv (l.map g) := by
  intro t2 ht2 hne2
  rcases List.mem_map.mp ht2 with ⟨t, ht, rfl⟩
  have hsubt : subIds (g t) = subIds t := by simp [subIds, hsub]
  rw [hsubt] at hne2 ⊢
  have H2 := H t ht hne2
  constructor
  · intro hc u2 hu2 hmem2
    rcases List.mem_map.mp hu2 with ⟨u, hu, rfl⟩
    exact H2.mp hc u hu (by rwa [hid u] at hmem2)
  · intro hall
    apply H2.mpr
    intro u hu hmem
    exact hall (g u) (List.mem_map_of_mem g hu) (by rwa [hid u])

theorem inv_preserving_map (l : List Todo) (hinv : CompletionInv l) (g : Todo → Todo)
    (hid : ∀ t, (g t).id = t.id) (hsub : ∀ t, (g t).subtaskIds = t.subtaskIds)
    (hcomp : ∀ t, (g t).completed = t.completed) :
    CompletionInv (l.map g) := by
  apply completionInv_map l g hid hsub
  intro t ht hnet
  rw [hcomp t]
  have H := hinv t ht hnet
  constructor
  · intro hc u hu hmem
    rw [hcomp u]
    exact H.mp hc u hu hmem
  · intro hall
    apply H.mpr
    intro u hu hmem
    have := hall u hu hmem
    rwa [hcomp u] at this

theorem wf_child {l : List Todo} (hwf : WellFormed l) {t u : Todo}
    (ht : t ∈ l) (hu : u ∈ l) (hmem : u.id ∈ subIds t) :
    u.parentId = some t.id ∧ subIds u = [] := by
  obtain ⟨c, hc, hcid, hcpar⟩ := hwf.2.1 t ht u.id hmem
  have hcu : c = u := eq_of_mem_of_id_eq hwf.1 hc hu hcid
  subst hcu
  exact ⟨hcpar, (hwf.2.2 c hc t.id hcpar).2.1⟩

theorem inv_untouched {l : List Todo} (hinv : CompletionInv l) (g : Todo → Todo)
    {t : Todo} (ht : t ∈ l) (hne : subIds t ≠ [])
    (hgt : g t = t)
    (hch : ∀ u ∈ l, u.id ∈ subIds t → g u = u) :
    (g t).completed = true ↔ ∀ u ∈ l, u.id ∈ subIds t → (g u).completed = true := by
  rw [hgt]
  have H := hinv t ht hne
  constructor
  · intro hc u hu hmem
    rw [hch u hu hmem]
    exact H.mp hc u hu hmem
  · intro hall
    apply H.mpr
    intro u hu hmem
    have := hall u hu hmem
    rwa [hch u hu hmem] at this

theorem completionInv_perm {l l2 : List Todo} (hp : l.Perm l2) (hinv : CompletionInv l) :
    CompletionInv l2 := by
  intro t ht hnet
  have H := hinv t (hp.mem_iff.mpr ht) hnet
  constructor
  · intro hc u hu hmem
    exact H.mp hc u (hp.mem_iff.mpr hu) hmem
  · intro hall
    exact H.mpr fun u hu hmem => hall u (hp.mem_iff.mp hu) hmem

theorem removeAt_cons_perm {α : Type} {l : List α} {n : Nat} {a : α}
    (h : l.get? n = some a) : l.Perm (a :: removeAt n l) := by
  induction n generalizing l with
  | zero =>
    cases l with
    | nil => cases h
    | cons b l =>
      simp [List.get?] at h
      subst h
      rfl
  | succ n ih =>
    cases l with
    | nil => cases h
    | cons b l =>
      have h2 : l.get? n = some a := h
      show (b :: l).Perm (a :: b :: removeAt n l)
      exact ((ih h2).cons b).trans (List.Perm.swap a b _)

theorem insertAt_perm {α : Type} (n : Nat) (x : α) (l : List α) :
    (insertAt n x l).Perm (x :: l) := by
  induction n generalizing l with
  | zero => rfl
  | succ n ih =>
    cases l with
    | nil => rfl
    | cons a l =>
      show (a :: insertAt n x l).Perm (x :: a :: l)
      exact ((ih l).cons a).trans (List.Perm.swap x a l)

theorem arrayMove_perm {α : Type} (l : List α) (fro dest : Int) :
    (arrayMove l fro dest).Perm l := by
  unfold arrayMove
  split
  · exact List.Perm.refl l
  · next removed heq =>
    exact (insertAt_perm _ _ _).trans (removeAt_cons_perm heq).symm

theorem inv_clearCompleted (l : List Todo) (hinv : CompletionInv l) :
    CompletionInv (clearCompleted l) := by
  intro t ht hnet
  have hmem := List.mem_filter.mp ht
  have htl : t ∈ l := hmem.1
  have htf : t.completed = false := by simpa using hmem.2
  have H := hinv t htl hnet
  rw [htf]
  constructor
  · intro hc
    exact absurd hc (by simp)
  · intro hall
    have hnot : ¬ ∀ u ∈ l, u.id ∈ subIds t → u.completed = true := by
      intro hA
      have := H.mpr hA
      rw [htf] at this
      exact Bool.false_ne_true this
    push_neg at hnot
    obtain ⟨u, hu, hmemu, hucomp⟩ := hnot
    have hufalse : u.completed = false := by
      cases hcu : u.completed
      · rfl
      · exact absurd hcu hucomp
    have husurv : u ∈ clearCompleted l :=
      List.mem_filter.mpr ⟨hu, by simp [hufalse]⟩
    exact absurd (hall u husurv hmemu) hucomp

theorem inv_addTodo (l : List Todo) (hwf : WellFormed l) (hinv : CompletionInv l)
    (text : String) (newId : Nat) (today : String) (options : AddTodoOptions)
    (hfresh : newId ∉ l.map Todo.id) :
    CompletionInv (addTodo l text newId today options) := by
  unfold addTodo
  split
  · exact hinv
  · intro t ht hnet
    rcases List.mem_append.mp ht with h | h
    · have H := hinv t h hnet
      constructor
      · intro hc u hu hmem
        rcases List.mem_append.mp hu with h2 | h2
        · exact H.mp hc u h2 hmem
        · simp at h2
          subst h2
          obtain ⟨c, hc2, hcid, _⟩ := hwf.2.1 t h newId hmem
          exact absurd (hcid ▸ List.mem_map_of_mem Todo.id hc2) hfresh
      · intro hall
        exact H.mpr fun u hu hmem => hall u (List.mem_append_left _ hu) hmem
    · simp at h
      subst h
      simp [subIds] at hnet

theorem inv_deleteTodo (l : List Todo) (hwf : WellFormed l) (hinv : CompletionInv l)
    (tid : Nat) (hguard : ∀ t ∈ l, t.id = tid → t.parentId = none) :
    CompletionInv (deleteTodo l tid) := by
  cases hfind : l.find? (fun t => decide (t.id = tid)) with
  | none =>
    have hres : deleteTodo l tid = l := by
      unfold deleteTodo
      rw [hfind]
    rw [hres]
    exact hinv
  | some todo =>
    have htodol : todo ∈ l := List.mem_of_find?_eq_some hfind
    have htid : todo.id = tid := by
      have := List.find?_some hfind
      simpa using this
    have hroot : todo.parentId = none := hguard todo htodol htid
    have htr : ¬ jsTruthyId todo.parentId = true := by simp [jsTruthyId, hroot]
    have hres : deleteTodo l tid
        = l.filter fun t => decide (t.id ≠ tid ∧ t.id ∉ subIds todo) := by
      unfold deleteTodo
      rw [hfind]
      exact if_neg htr
    rw [hres]
    intro t ht hnet
    have hmem := List.mem_filter.mp ht
    have htl : t ∈ l := hmem.1
    have hkeep : t.id ≠ tid ∧ t.id ∉ subIds todo := by simpa using hmem.2
    have H := hinv t htl hnet
    have hsurv : ∀ u ∈ l, u.id ∈ subIds t →
        u ∈ l.filter fun t2 => decide (t2.id ≠ tid ∧ t2.id ∉ subIds todo) := by
      intro u hu hmemu
      have hcp := wf_child hwf htl hu hmemu
      refine List.mem_filter.mpr ⟨hu, ?_⟩
      have h1 : u.id ≠ tid := by
        intro he
        have heq : u = todo := eq_of_mem_of_id_eq hwf.1 hu htodol (he.trans htid.symm)
        rw [heq] at hcp
        rw [hroot] at hcp
        cases hcp.1
      have h2 : u.id ∉ subIds todo := by
        intro hin
        have hcp2 := wf_child hwf htodol hu hin
        rw [hcp.1] at hcp2
        have : todo.id = t.id := by
          have := hcp2.1
          injection this with h3
          exact h3.symm
        exact hkeep.1 (this ▸ htid)
      simp [h1, h2]
    constructor
    · intro hc u hu hmemu
      exact H.mp hc u (List.mem_filter.mp hu).1 hmemu
    · intro hall
      exact H.mpr fun u hu hmemu => hall u (hsurv u hu hmemu) hmemu

theorem subtaskSync_eq (l : List Todo) (s p : Todo) (pid : Nat) (sids : List Nat)
    (hnd : (l.map Todo.id).Nodup) (hp : p ∈ l)
    (hpar : s.parentId = some pid) (hpe : p.id = pid) (hps : ¬ p.id = s.id)
    (hpsub : p.subtaskIds = some sids) :
    subtaskSyncToggle l s =
      (if (!s.completed) = true then
        if ((l.map fun t => if t.id = s.id then { t with completed := !s.completed } else t).filter
            (fun t => decide (t.id ∈ sids))).all (fun t => t.completed) = true then
          (l.map fun t => if t.id = s.id then { t with completed := !s.completed } else t).map
            fun t => if t.id = p.id then { t with completed := true } else t
        else l.map fun t => if t.id = s.id then { t with completed := !s.completed } else t
      else
        (l.map fun t => if t.id = s.id then { t with completed := !s.completed } else t).map
          fun t => if t.id = p.id then { t with completed := false } else t) := by
  have hg1id : ∀ t : Todo,
      ((fun t => if t.id = s.id then { t with completed := !s.completed } else t) t).id = t.id := by
    intro t
    by_cases h : t.id = s.id <;> simp [h]
  have hplfind : l.find? (fun t => decide (t.id = pid)) = some p := by
    rw [← hpe]
    exact find?_id_self hnd hp
  have hmidp : (l.map fun t => if t.id = s.id then { t with completed := !s.completed } else t).find?
      (fun t => decide (t.id = pid)) = some p := by
    rw [find?_map_of_id _ _ hg1id pid, hplfind]
    simp [hps]
  simp only [subtaskSyncToggle]
  rw [hpar]
  simp only [Option.getD_some]
  rw [hmidp]
  simp only [hpsub]

theorem child_not_sub {l : List Todo} (hwf : WellFormed l) {t u s : Todo} {pid : Nat}
    (ht : t ∈ l) (hu : u ∈ l) (hs : s ∈ l) (hmemu : u.id ∈ subIds t)
    (hpar : s.parentId = some pid) (htp : ¬ t.id = pid) : ¬ u.id = s.id := by
  intro he
  have heq := eq_of_mem_of_id_eq hwf.1 hu hs he
  have h2 := (wf_child hwf ht hu hmemu).1
  rw [heq, hpar] at h2
  injection h2 with h3
  exact htp h3.symm

theorem child_not_root {l : List Todo} (hwf : WellFormed l) {t u r : Todo}
    (ht : t ∈ l) (hu : u ∈ l) (hr : r ∈ l) (hmemu : u.id ∈ subIds t)
    (hroot : r.parentId = none) : ¬ u.id = r.id := by
  intro he
  have heq := eq_of_mem_of_id_eq hwf.1 hu hr he
  have h2 := (wf_child hwf ht hu hmemu).1
  rw [heq, hroot] at h2
  cases h2

theorem parent_not_leaf {l : List Todo} (hwf : WellFormed l) {t s : Todo}
    (ht : t ∈ l) (hs : s ∈ l) (hnet : subIds t ≠ []) (hsnosub : subIds s = []) :
    ¬ t.id = s.id := by
  intro he
  have heq := eq_of_mem_of_id_eq hwf.1 ht hs he
  rw [heq, hsnosub] at hnet
  exact hnet rfl

theorem inv_modify_leaf (l : List Todo) (hwf : WellFormed l) (hinv : CompletionInv l)
    (s : Todo) (hs : s ∈ l) (hroot : s.parentId = none) (hsnosub : subIds s = [])
    (f : Todo → Todo)
    (hfid : ∀ t, (f t).id = t.id) (hfsub : ∀ t, (f t).subtaskIds = t.subtaskIds) :
    CompletionInv (l.map fun t => if t.id = s.id then f t else t) := by
  apply completionInv_map
  · intro t
    by_cases h : t.id = s.id <;> simp [h, hfid]
  · intro t
    by_cases h : t.id = s.id <;> simp [h, hfsub]
  · intro t ht hnet
    have hts : ¬ t.id = s.id := parent_not_leaf hwf ht hs hnet hsnosub
    have hgt : (if t.id = s.id then f t else t) = t := if_neg hts
    apply inv_untouched hinv (fun t => if t.id = s.id then f t else t) ht hnet hgt
    intro u hu hmemu
    have hus : ¬ u.id = s.id := child_not_root hwf ht hu hs hmemu hroot
    exact if_neg hus

theorem inv_root_propagate (l : List Todo) (hwf : WellFormed l) (hinv : CompletionInv l)
    (r : Todo) (hr : r ∈ l) (hroot : r.parentId = none) (hne : subIds r ≠ []) (b : Bool) :
    CompletionInv ((l.map fun t => if t.id = r.id then { t with completed := b } else t).map
      fun t => if t.id ∈ subIds r then { t with completed := b } else t) := by
  rw [List.map_map]
  apply completionInv_map
  · intro t
    by_cases h1 : t.id = r.id <;> by_cases h2 : t.id ∈ subIds r <;>
      simp [Function.comp, h1, h2]
  · intro t
    by_cases h1 : t.id = r.id <;> by_cases h2 : t.id ∈ subIds r <;>
      simp [Function.comp, h1, h2]
  · intro t ht hnet
    by_cases htr : t.id = r.id
    · have heq : t = r := eq_of_mem_of_id_eq hwf.1 ht hr htr
      subst heq
      have hLHS : (((fun v => if v.id ∈ subIds t then { v with completed := b } else v) ∘
          (fun w => if w.id = t.id then { w with completed := b } else w)) t).completed = b := by
        by_cases h2 : t.id ∈ subIds t <;> simp [Function.comp, h2]
      have hRHS : ∀ u ∈ l, u.id ∈ subIds t →
          (((fun v => if v.id ∈ subIds t then { v with completed := b } else v) ∘
            (fun w => if w.id = t.id then { w with completed := b } else w)) u).completed = b := by
        intro u hu hmemu
        by_cases h1 : u.id = t.id <;> simp [Function.comp, h1, hmemu]
      constructor
      · intro hc u hu hmemu
        rw [hRHS u hu hmemu, ← hLHS]
        exact hc
      · intro hall
        obtain ⟨cid, hcid⟩ := List.exists_mem_of_ne_nil _ hnet
        obtain ⟨c, hcl, hcidc, _⟩ := hwf.2.1 t ht cid hcid
        have hcm : c.id ∈ subIds t := by
          rw [hcidc]
          exact hcid
        have h2 := hall c hcl hcm
        rw [hRHS c hcl hcm] at h2
        rw [hLHS]
        exact h2
    · have hnotin : t.id ∉ subIds r := by
        intro hin
        exact hnet (wf_child hwf hr ht hin).2
      have hgt : ((fun t => if t.id ∈ subIds r then { t with completed := b } else t) ∘
          (fun t => if t.id = r.id then { t with completed := b } else t)) t = t := by
        simp [Function.comp, htr, hnotin]
      apply inv_untouched hinv
        ((fun t => if t.id ∈ subIds r then { t with completed := b } else t) ∘
          (fun t => if t.id = r.id then { t with completed := b } else t)) ht hnet hgt
      intro u hu hmemu
      have h1 : ¬ u.id = r.id := child_not_root hwf ht hu hr hmemu hroot
      have h2 : u.id ∉ subIds r := by
        intro hin
        have hcp := (wf_child hwf ht hu hmemu).1
        have hcp2 := (wf_child hwf hr hu hin).1
        rw [hcp] at hcp2
        injection hcp2 with h3
        exact htr h3
      simp [Function.comp, h1, h2]

theorem inv_subtaskSync (l : List Todo) (hwf : WellFormed l) (hinv : CompletionInv l)
    (s : Todo) (hs : s ∈ l) (pid : Nat) (hpar : s.parentId = some pid) :
    CompletionInv (subtaskSyncToggle l s) := by
  obtain ⟨hpid0, hsnosub, p, hp, hpe, hsmem, hproot⟩ := hwf.2.2 s hs pid hpar
  have hps : ¬ p.id = s.id := by
    intro he
    have heq := eq_of_mem_of_id_eq hwf.1 hp hs he
    rw [heq, hpar] at hproot
    cases hproot
  have hsp2 : ¬ s.id = p.id := fun he => hps he.symm
  rcases hc : p.subtaskIds with _ | sids
  · exfalso
    rw [subIds, hc] at hsmem
    simp at hsmem
  · have hsmem2 : s.id ∈ sids := by
      have h0 := hsmem
      rw [subIds, hc] at h0
      simpa using h0
    rw [subtaskSync_eq l s p pid sids hwf.1 hp hpar hpe hps hc]
    by_cases hb : (!s.completed) = true
    · rw [if_pos hb]
      have hscomp : s.completed = false := by
        cases hq : s.completed with
        | false => rfl
        | true =>
          rw [hq] at hb
          exact absurd hb (by simp)
      by_cases hall : ((l.map fun t => if t.id = s.id then { t with completed := !s.completed } else t).filter
          (fun t => decide (t.id ∈ sids))).all (fun t => t.completed) = true
      · rw [if_pos hall, List.map_map]
        have hallm : ∀ u ∈ l, u.id ∈ sids →
            ((fun w => if w.id = s.id then { w with completed := !s.completed } else w) u).completed
              = true := by
          intro u hu hmemu
          have hvid : ((fun w => if w.id = s.id then { w with completed := !s.completed } else w) u).id
              = u.id := by
            by_cases h : u.id = s.id <;> simp [h]
          have hfil : (fun w => if w.id = s.id then { w with completed := !s.completed } else w) u
              ∈ (l.map fun t => if t.id = s.id then { t with completed := !s.completed } else t).filter
                (fun t => decide (t.id ∈ sids)) :=
            List.mem_filter.mpr ⟨List.mem_map_of_mem _ hu, by simp [hvid, hmemu]⟩
          exact List.all_eq_true.mp hall _ hfil
        apply completionInv_map
        · intro w
          simp [Function.comp, apply_ite Todo.id]
        · intro w
          simp [Function.comp, apply_ite Todo.subtaskIds]
        · intro t ht hnet
          by_cases htp : t.id = p.id
          · have heq := eq_of_mem_of_id_eq hwf.1 ht hp htp
            subst heq
            have hLHS : (((fun v => if v.id = t.id then { v with completed := true } else v) ∘
                (fun w => if w.id = s.id then { w with completed := !s.completed } else w)) t).completed
                = true := by
              simp [Function.comp, hps]
            have hRHSA : ∀ u ∈ l, u.id ∈ subIds t →
                (((fun v => if v.id = t.id then { v with completed := true } else v) ∘
                  (fun w => if w.id = s.id then { w with completed := !s.completed } else w)) u).completed
                  = true := by
              intro u hu hmemu
              have hmemu2 : u.id ∈ sids := by
                have h0 := hmemu
                rw [subIds, hc] at h0
                simpa using h0
              by_cases h2 : u.id = s.id
              · have h3 : ¬ u.id = t.id := by
                  rw [h2]
                  exact hsp2
                simp [Function.comp, h2, h3, hb]
              · by_cases h4 : u.id = t.id
                · exfalso
                  have heq2 := eq_of_mem_of_id_eq hwf.1 hu ht h4
                  have h5 := (wf_child hwf ht hu hmemu).1
                  rw [heq2, hproot] at h5
                  cases h5
                · have h3 := hallm u hu hmemu2
                  have h5 : u.completed = true := by simpa [h2] using h3
                  simp [Function.comp, h2, h4, h5]
            exact ⟨fun _ => hRHSA, fun _ => hLHS⟩
          · have htp2 : ¬ t.id = pid := fun h => htp (h.trans hpe.symm)
            have hts : ¬ t.id = s.id := parent_not_leaf hwf ht hs hnet hsnosub
            have hgt : (((fun v => if v.id = p.id then { v with completed := true } else v) ∘
                (fun w => if w.id = s.id then { w with completed := !s.completed } else w)) t) = t := by
              simp [Function.comp, hts, htp]
            apply inv_untouched hinv
              ((fun v => if v.id = p.id then { v with completed := true } else v) ∘
                (fun w => if w.id = s.id then { w with completed := !s.completed } else w))
              ht hnet hgt
            intro u hu hmemu
            have h1 : ¬ u.id = s.id := child_not_sub hwf ht hu hs hmemu hpar htp2
            have h2 : ¬ u.id = p.id := child_not_root hwf ht hu hp hmemu hproot
            simp [Function.comp, h1, h2]
      · rw [if_neg hall]
        apply completionInv_map
        · intro w
          simp [apply_ite Todo.id]
        · intro w
          simp [apply_ite Todo.subtaskIds]
        · intro t ht hnet
          by_cases htp : t.id = p.id
          · have heq := eq_of_mem_of_id_eq hwf.1 ht hp htp
            subst heq
            have hpfalse : t.completed = false := by
              cases hq : t.completed with
              | false => rfl
              | true =>
                have h3 := (hinv t ht hnet).mp hq s hs hsmem
                rw [hscomp] at h3
                exact absurd h3 (by simp)
            constructor
            · intro hcc
              simp [hps] at hcc
              exact absurd hcc (by simp [hpfalse])
            · intro hall2
              exfalso
              apply hall
              rw [List.all_eq_true]
              intro v hv
              have hv2 := List.mem_filter.mp hv
              rcases List.mem_map.mp hv2.1 with ⟨u, hu, rfl⟩
              have hvid : ((fun w => if w.id = s.id then { w with completed := !s.completed } else w) u).id
                  = u.id := by
                by_cases h : u.id = s.id <;> simp [h]
              have hmemu : u.id ∈ sids := by simpa [hvid] using hv2.2
              have hmemu2 : u.id ∈ subIds t := by
                rw [subIds, hc]
                simpa using hmemu
              exact hall2 u hu hmemu2
          · have htp2 : ¬ t.id = pid := fun h => htp (h.trans hpe.symm)
            have hts : ¬ t.id = s.id := parent_not_leaf hwf ht hs hnet hsnosub
            have hgt : ((fun w => if w.id = s.id then { w with completed := !s.completed } else w) t)
                = t := by
              simp [hts]
            apply inv_untouched hinv
              (fun w => if w.id = s.id then { w with completed := !s.completed } else w)
              ht hnet hgt
            intro u hu hmemu
            have h1 : ¬ u.id = s.id := child_not_sub hwf ht hu hs hmemu hpar htp2
            simp [h1]
    · rw [if_neg hb, List.map_map]
      have hstrue : s.completed = true := by
        cases hq : s.completed with
        | true => rfl
        | false =>
          rw [hq] at hb
          exact absurd rfl hb
      apply completionInv_map
      · intro w
        simp [Function.comp, apply_ite Todo.id]
      · intro w
        simp [Function.comp, apply_ite Todo.subtaskIds]
      · intro t ht hnet
        by_cases htp : t.id = p.id
        · have heq := eq_of_mem_of_id_eq hwf.1 ht hp htp
          subst heq
          have hLHS : (((fun v => if v.id = t.id then { v with completed := false } else v) ∘
              (fun w => if w.id = s.id then { w with completed := !s.completed } else w)) t).completed
              = false := by
            simp [Function.comp, hps]
          constructor
          · intro hcc
            rw [hLHS] at hcc
            exact absurd hcc (by simp)
          · intro hall2
            have h3 := hall2 s hs hsmem
            have h4 : (((fun v => if v.id = t.id then { v with completed := false } else v) ∘
                (fun w => if w.id = s.id then { w with completed := !s.completed } else w)) s).completed
                = false := by
              simp [Function.comp, hsp2, hstrue]
            rw [h4] at h3
            exact absurd h3 (by simp)
        · have htp2 : ¬ t.id = pid := fun h => htp (h.trans hpe.symm)
          have hts : ¬ t.id = s.id := parent_not_leaf hwf ht hs hnet hsnosub
          have hgt : (((fun v => if v.id = p.id then { v with completed := false } else v) ∘
              (fun w => if w.id = s.id then { w with completed := !s.completed } else w)) t) = t := by
            simp [Function.comp, hts, htp]
          apply inv_untouched hinv
            ((fun v => if v.id = p.id then { v with completed := false } else v) ∘
              (fun w => if w.id = s.id then { w with completed := !s.completed } else w))
            ht hnet hgt
          intro u hu hmemu
          have h1 : ¬ u.id = s.id := child_not_sub hwf ht hu hs hmemu hpar htp2
          have h2 : ¬ u.id = p.id := child_not_root hwf ht hu hp hmemu hproot
          simp [Function.comp, h1, h2]

theorem truthy_parent_some {o : Option Nat} (h : jsTruthyId o = true) :
    ∃ pid, o = some pid := by
  cases o with
  | none => simp [jsTruthyId] at h
  | some k => exact ⟨k, rfl⟩

theorem root_of_not_truthy {l : List Todo} (hwf : WellFormed l) {t : Todo} (ht : t ∈ l)
    (h : ¬ jsTruthyId t.parentId = true) : t.parentId = none := by
  cases hq : t.parentId with
  | none => rfl
  | some k =>
    have hk := (hwf.2.2 t ht k hq).1
    exact absurd (by simp [jsTruthyId, hq, hk]) h

theorem inv_toggleSubtask (l : List Todo) (hwf : WellFormed l) (hinv : CompletionInv l)
    (sid : Nat)
    (hguard : ∀ t ∈ l, t.id = sid → jsTruthyId t.parentId = true ∨ subIds t = []) :
    CompletionInv (toggleSubtask l sid) := by
  cases hfind : l.find? (fun t => decide (t.id = sid)) with
  | none =>
    have hres : toggleSubtask l sid = l := by
      unfold toggleSubtask
      rw [hfind]
      exact map_id_of_forall fun a ha => by
        have := List.find?_eq_none.mp hfind a ha
        simp at this
        simp [this]
    rw [hres]
    exact hinv
  | some s =>
    have hs : s ∈ l := List.mem_of_find?_eq_some hfind
    have hsid : s.id = sid := by
      have := List.find?_some hfind
      simpa using this
    by_cases htr : jsTruthyId s.parentId = true
    · have hres : toggleSubtask l sid = subtaskSyncToggle l s := by
        unfold toggleSubtask
        rw [hfind]
        exact if_pos htr
      obtain ⟨pid, hpar⟩ := truthy_parent_some htr
      rw [hres]
      exact inv_subtaskSync l hwf hinv s hs pid hpar
    · have hres : toggleSubtask l sid
          = l.map fun t => if t.id = sid then { t with completed := !t.completed } else t := by
        unfold toggleSubtask
        rw [hfind]
        exact if_neg htr
      have hroot : s.parentId = none := root_of_not_truthy hwf hs htr
      have hnosub : subIds s = [] := by
        rcases hguard s hs hsid with h | h
        · exact absurd h htr
        · exact h
      rw [hres]
      subst hsid
      exact inv_modify_leaf l hwf hinv s hs hroot hnosub
        (fun t => { t with completed := !t.completed }) (fun t => rfl) (fun t => rfl)

theorem inv_toggleTodo (l : List Todo) (hwf : WellFormed l) (hinv : CompletionInv l)
    (tid : Nat) : CompletionInv (toggleTodo l tid) := by
  cases hfind : l.find? (fun t => decide (t.id = tid)) with
  | none =>
    have hres : toggleTodo l tid = l := by
      unfold toggleTodo
      rw [hfind]
    rw [hres]
    exact hinv
  | some r =>
    have hr : r ∈ l := List.mem_of_find?_eq_some hfind
    have hrid : r.id = tid := by
      have := List.find?_some hfind
      simpa using this
    by_cases htr : jsTruthyId r.parentId = true
    · have hres : toggleTodo l tid = subtaskSyncToggle l r := by
        unfold toggleTodo
        rw [hfind]
        exact if_pos htr
      obtain ⟨pid, hpar⟩ := truthy_parent_some htr
      rw [hres]
      exact inv_subtaskSync l hwf hinv r hr pid hpar
    · have hroot : r.parentId = none := root_of_not_truthy hwf hr htr
      by_cases hlen : (subIds r).length > 0
      · have hres : toggleTodo l tid
            = (l.map fun t => if t.id = tid then { t with completed := !r.completed } else t).map
              fun t => if t.id ∈ subIds r then { t with completed := !r.completed } else t := by
          unfold toggleTodo
          rw [hfind]
          simp [htr, hlen]
        rw [hres]
        subst hrid
        exact inv_root_propagate l hwf hinv r hr hroot (by
          intro he
          rw [he] at hlen
          simp at hlen) (!r.completed)
      · have hres : toggleTodo l tid
            = l.map fun t => if t.id = tid then { t with completed := !r.completed } else t := by
          unfold toggleTodo
          rw [hfind]
          simp [htr, hlen]
        rw [hres]
        subst hrid
        have hnosub : subIds r = [] := by
          cases hq : subIds r with
          | nil => rfl
          | cons a tl =>
            rw [hq] at hlen
            simp at hlen
        exact inv_modify_leaf l hwf hinv r hr hroot hnosub
          (fun t => { t with completed := !r.completed }) (fun t => rfl) (fun t => rfl)

/-- Concrete invariant-satisfying state for the C3 counterexample: a
completed parent whose single subtask is completed. -/
def invP : Todo :=
  { id := 1, text := "done parent", completed := true, subtaskIds := some [2] }

def invC : Todo :=
  { id := 2, text := "done child", completed := true, parentId := some 1 }

/-- C3: counterexample.  The two-task state satisfies both the data-model
well-formedness and the completion-rollup invariant, yet `addSubtask`
(which appends an incomplete subtask without recomputing the parent's
`completed`) produces a state that violates the invariant: the parent
stays completed while its new subtask is incomplete. -/
theorem completionInv_not_preserved_by_addSubtask :
    WellFormed [invP, invC] ∧ CompletionInv [invP, invC] ∧
    ¬ CompletionInv (addSubtask [invP, invC] 1 "new step" 3) := by
  unfold WellFormed CompletionInv
  decide

/-- C3 (amended): on a well-formed task list (unique ids, `subtaskIds`
mirroring `parentId`, one level of nesting) satisfying the rollup
invariant, the invariant is preserved by `addTodo` with a fresh id, by
`toggleTodo` on any id, by `toggleSubtask` on any id whose target (when
present) is a subtask or has no subtasks, by `updateTodo` and
`updateTodoFields` on any id, by `reorderTodos` on any pair of ids, by
`deleteTodo` on any id whose target (when present) is a root, and by
`clearCompleted`; it is not preserved by `addSubtask` or by the
subtask-delete path (see the counterexample). -/
theorem completionInv_preservation
    (l : List Todo) (hwf : WellFormed l) (hinv : CompletionInv l) :
    (∀ text newId today options, newId ∉ l.map Todo.id →
      CompletionInv (addTodo l text newId today options)) ∧
    (∀ tid, CompletionInv (toggleTodo l tid)) ∧
    (∀ sid, (∀ t ∈ l, t.id = sid → jsTruthyId t.parentId = true ∨ subIds t = []) →
      CompletionInv (toggleSubtask l sid)) ∧
    (∀ tid newText, CompletionInv (updateTodo l tid newText)) ∧
    (∀ tid fields, CompletionInv (updateTodoFields l tid fields)) ∧
    (∀ activeId overId, CompletionInv (reorderTodos l activeId overId)) ∧
    (∀ tid, (∀ t ∈ l, t.id = tid → t.parentId = none) →
      CompletionInv (deleteTodo l tid)) ∧
    CompletionInv (clearCompleted l) := by
  refine ⟨?_, ?_, ?_, ?_, ?_, ?_, ?_, ?_⟩
  · intro text newId today options hfresh
    exact inv_addTodo l hwf hinv text newId today options hfresh
  · intro tid
    exact inv_toggleTodo l hwf hinv tid
  · intro sid hguard
    exact inv_toggleSubtask l hwf hinv sid hguard
  · intro tid newText
    unfold updateTodo
    split
    · exact hinv
    · exact inv_preserving_map l hinv _
        (fun t => by by_cases h : t.id = tid <;> simp [h])
        (fun t => by by_cases h : t.id = tid <;> simp [h])
        (fun t => by by_cases h : t.id = tid <;> simp [h])
  · intro tid fields
    exact inv_preserving_map l hinv _
      (fun t => by by_cases h : t.id = tid <;> simp [h, spreadFields])
      (fun t => by by_cases h : t.id = tid <;> simp [h, spreadFields])
      (fun t => by by_cases h : t.id = tid <;> simp [h, spreadFields])
  · intro activeId overId
    exact completionInv_perm (arrayMove_perm _ _ _).symm hinv
  · intro tid hguard
    exact inv_deleteTodo l hwf hinv tid hguard
  · exact inv_clearCompleted l hinv

/-- C3 witness: the amended preservation applied to the concrete state:
toggling the subtask and clearing completed keep the invariant. -/
theorem completionInv_preservation_witness :
    CompletionInv (toggleTodo [invP, invC] 2) ∧
    CompletionInv (clearCompleted [invP, invC]) := by
  have h := completionInv_preservation [invP, invC]
    (by unfold WellFormed; decide) (by unfold CompletionInv; decide)
  exact ⟨h.2.1 2, h.2.2.2.2.2.2.2⟩
